import Mathlib

/-!
Verification development for the retrieval backend in
`gemini-hub-backend/main.py`: a shallow embedding in Lean 4 of the
chunking, ingestion, source-deduplication and AI-search logic, together
with theorems settling the specified properties.
-/

set_option maxRecDepth 10000

/-- A chat message, as in the Pydantic model `Message` (main.py lines 27-29). -/
structure Message where
  role : String
  content : String
deriving Repr, DecidableEq

/-- A conversation, as in the Pydantic model `Conversation` (main.py lines 31-36).
`sidebarTitle` and `collection` are `Optional[str]` in the source, hence
`Option String` here; Pydantic fills `collection` with a default of
"Uncategorized" when the field is absent, but an explicit null is representable. -/
structure Conversation where
  title : String
  url : String
  messages : List Message
  sidebarTitle : Option String
  collection : Option String
deriving Repr, DecidableEq

/-- The transcript line contributed by one message: the f-string of main.py
line 142, interpolating the role and the content around a colon-space separator
and ending in a newline. -/
def msgLine (m : Message) : String :=
  m.role ++ ": " ++ m.content ++ "\n"

/-- The chunking loop of `save_chat` (main.py lines 141-157) restricted to the
text chunks it accumulates: the buffer grows by one `msgLine` per message and is
flushed when its length exceeds 500 or when the message just appended was the
last one. -/
def chunksAux : String → List Message → List String
  | _, [] => []
  | cur, m :: rest =>
    let cur2 := cur ++ msgLine m
    if 500 < cur2.length ∨ rest = [] then
      cur2 :: chunksAux "" rest
    else
      chunksAux cur2 rest

/-- The chunks produced by `save_chat` for a message list (buffer starts empty,
main.py line 137). -/
def chunks (msgs : List Message) : List String :=
  chunksAux "" msgs

/-- Concatenation of a list of strings in order (used to state round-trip
properties of the chunker). -/
def strConcat : List String → String
  | [] => ""
  | s :: l => s ++ strConcat l

/-- Per-chunk vector metadata, as built in main.py lines 149-155. `title` is
`conversation.sidebarTitle` and `collection` is `conversation.collection`,
both `Optional[str]` in the source. -/
structure ChunkMeta where
  sql_chat_id : Nat
  title : Option String
  url : String
  chunk_index : Nat
  collection : Option String
deriving Repr, DecidableEq

/-- Metadata for the chunk with counter value `counter` (main.py lines 149-155). -/
def mkMeta (conv : Conversation) (sqlId : Nat) (counter : Nat) : ChunkMeta :=
  { sql_chat_id := sqlId
    title := conv.sidebarTitle
    url := conv.url
    chunk_index := counter
    collection := conv.collection }

/-- The full chunking loop of `save_chat` (main.py lines 134-157), producing the
three aligned lists `chunks`, `chunk_ids` and `metadatas`. The chunk id is the
f-string of main.py line 146, joining sql_db_id and chunk_counter with an
underscore. -/
def ingestLoop (conv : Conversation) (sqlId : Nat) :
    String → Nat → List Message → List String × List String × List ChunkMeta
  | _, _, [] => ([], [], [])
  | cur, counter, m :: rest =>
    let cur2 := cur ++ msgLine m
    if 500 < cur2.length ∨ rest = [] then
      let t := ingestLoop conv sqlId "" (counter + 1) rest
      (cur2 :: t.1, (toString sqlId ++ "_" ++ toString counter) :: t.2.1,
        mkMeta conv sqlId counter :: t.2.2)
    else
      ingestLoop conv sqlId cur2 counter rest

/-- The `metadatas` list built by `save_chat` for a conversation assigned SQL id
`sqlId` (initial buffer empty, initial counter 0, main.py lines 137-138). -/
def buildMetadatas (conv : Conversation) (sqlId : Nat) : List ChunkMeta :=
  (ingestLoop conv sqlId "" 0 conv.messages).2.2

/-- A metadata dictionary as retrieved from the vector store on the query path.
`none` for a field models the key being absent (so Python `meta.get` returns
`None`); the whole entry being a falsy value (`None` or an empty dict) is
modelled at the use site by `Option RMeta`. -/
structure RMeta where
  title : Option String
  url : Option String
deriving Repr, DecidableEq

/-- One entry of the deduplicated `unique_sources` list (main.py lines 276-279):
`title` is the title key with default Unknown Title and `url` is the url key,
which is `None` when the key is missing. -/
structure SourceRef where
  title : String
  url : Option String
deriving Repr, DecidableEq

/-- The deduplication loop of `ai_search_chats` (main.py lines 272-280): walk the
ranked metadata list, skip falsy entries, and emit one source per not-yet-seen
url value (missing url read as None); the seen-set starts empty. -/
def dedupAux : List (Option String) → List (Option RMeta) → List SourceRef
  | _, [] => []
  | seen, none :: rest => dedupAux seen rest
  | seen, some r :: rest =>
    if r.url ∈ seen then
      dedupAux seen rest
    else
      { title := r.title.getD "Unknown Title", url := r.url } ::
        dedupAux (r.url :: seen) rest

/-- The `unique_sources` list computed by `ai_search_chats` from the retrieved
metadata list (main.py lines 272-280). -/
def uniqueSources (ms : List (Option RMeta)) : List SourceRef :=
  dedupAux [] ms

/-- A row of the SQL `chats` table (main.py lines 42-48); `save_chat` stores
`conversation.sidebarTitle` as the row title (main.py line 120). -/
structure ChatRecord where
  id : Nat
  title : Option String
  url : String
  messages : List Message
  collection : Option String
deriving Repr, DecidableEq

/-- The canonical SQL store: committed rows plus the next autoincrement id. -/
structure SqlDb where
  chats : List ChatRecord
  nextId : Nat
deriving Repr, DecidableEq

/-- One record of the Chroma vector collection as written by
`vector_collection.add` (main.py lines 166-171). -/
structure VectorRecord where
  id : String
  embedding : List Int
  document : String
  metadata : ChunkMeta
deriving Repr, DecidableEq

/-- The persistent vector collection. -/
structure VectorIndex where
  records : List VectorRecord
deriving Repr, DecidableEq

/-- The external effects `save_chat` relies on: the embedding backend (which may
raise) and whether `vector_collection.add` raises. `embed` models
`embedding_model.encode(chunks).tolist()` (main.py line 162); `addError` of
`some e` models `vector_collection.add` raising exception `e`. -/
structure SaveEnv where
  embed : List String → Except String (List (List Int))
  addError : Option String

/-- Zip the aligned id/embedding/document/metadata lists into vector records,
as `vector_collection.add` consumes them (main.py lines 166-171). -/
def mkRecords : List String → List (List Int) → List String → List ChunkMeta →
    List VectorRecord
  | i :: is, e :: es, d :: ds, m :: ms =>
    { id := i, embedding := e, document := d, metadata := m } :: mkRecords is es ds ms
  | _, _, _, _ => []

/-- Render an optional string the way a Python f-string renders it. -/
def optStr : Option String → String
  | none => "None"
  | some s => s

/-- The JSON body returned by `save_chat`. -/
structure SaveResponse where
  status : String
  message : String
  database_id : Nat
deriving Repr, DecidableEq

/-- Shallow embedding of the `save_chat` endpoint (main.py lines 104-187):
if a chat with the same url exists, return the info response and touch nothing;
otherwise commit the SQL row, then run the chunk/embed/add block inside
try/except — any embedding or add failure leaves the vector index unchanged and
the response is still the success response carrying the committed SQL id. -/
def saveChat (env : SaveEnv) (conv : Conversation) (db : SqlDb) (vi : VectorIndex) :
    SaveResponse × SqlDb × VectorIndex :=
  match db.chats.find? (fun c => c.url == conv.url) with
  | some existing =>
    ({ status := "info"
       message := "Chat \x27" ++ optStr existing.title ++ "\x27 was already saved."
       database_id := existing.id }, db, vi)
  | none =>
    let sqlId := db.nextId
    let db2 : SqlDb :=
      { chats := db.chats ++
          [{ id := sqlId, title := conv.sidebarTitle, url := conv.url,
             messages := conv.messages, collection := conv.collection }]
        nextId := db.nextId + 1 }
    let arts := ingestLoop conv sqlId "" 0 conv.messages
    let vi2 : VectorIndex :=
      if arts.1 = [] then vi
      else
        match env.embed arts.1 with
        | Except.error _ => vi
        | Except.ok embeddings =>
          match env.addError with
          | some _ => vi
          | none => { records := vi.records ++ mkRecords arts.2.1 embeddings arts.1 arts.2.2 }
    ({ status := "success"
       message := "Saved chat \x27" ++ optStr conv.sidebarTitle ++ "\x27"
       database_id := sqlId }, db2, vi2)

/-- The external effects `ai_search_chats` relies on: query embedding
(`embedding_model.encode([query]).tolist()[0]`, main.py line 245), the Chroma
query returning the aligned `documents[0]` and `metadatas[0]` lists (main.py
lines 256-261), the configured Gemini API key, and the Gemini call returning
the list of `response.parts` texts (main.py lines 299-306). An `Except.error`
models the corresponding Python call raising. -/
structure QueryEnv where
  embedQuery : String → Except String (List Int)
  queryIndex : List Int → Option String → Except String (List String × List (Option RMeta))
  geminiKey : Option String
  generate : String → Except String (List String)

/-- Outcome of `ai_search_chats`: either an `HTTPException` or the JSON body
`{answer, sources}`. -/
inductive SearchResult where
  | httpError (code : Nat) (detail : String)
  | ok (answer : String) (sources : List SourceRef)
deriving Repr, DecidableEq

/-- `"\n---\n".join(documents)` of main.py line 269. -/
def sepJoin : List String → String
  | [] => ""
  | [d] => d
  | d :: rest => d ++ "\n---\n" ++ sepJoin rest

/-- The RAG prompt of main.py lines 290-297 as a function of context and query. -/
def promptOf (context query : String) : String :=
  "Based *only* on the following context from my saved chat history, please answer my question. Be concise and synthesize the information. If the context doesn\x27t contain the answer, say so.\n\n            Context:\n            " ++
    context ++ "\n\n            Question: " ++ query ++ "\n\n            Answer:"

/-- Shallow embedding of the `ai_search_chats` endpoint (main.py lines 231-316):
empty query is a 400; a raising embed or index query is caught by the outer
handler and becomes a 500; an empty document list short-circuits to the canned
no-information answer with empty sources; a missing Gemini key or a failing or
empty Gemini call degrade the answer but keep the success shape with the
deduplicated sources. -/
def aiSearch (env : QueryEnv) (query : String) (collectionFilter : Option String) :
    SearchResult :=
  if query = "" then SearchResult.httpError 400 "Missing \x27query\x27 in request body"
  else
    match env.embedQuery query with
    | Except.error e =>
      SearchResult.httpError 500 ("An internal error occurred during search: " ++ e)
    | Except.ok qv =>
      match env.queryIndex qv collectionFilter with
      | Except.error e =>
        SearchResult.httpError 500 ("An internal error occurred during search: " ++ e)
      | Except.ok (docs, metas) =>
        if docs = [] then
          SearchResult.ok
            "I couldn\x27t find any relevant information in your saved chats to answer that."
            []
        else
          let context := sepJoin docs
          let sources := uniqueSources metas
          match env.geminiKey with
          | none =>
            SearchResult.ok ("Gemini API key not configured. Raw context:\n" ++ context)
              sources
          | some _ =>
            match env.generate (promptOf context query) with
            | Except.error e =>
              SearchResult.ok
                ("Error generating answer with Gemini: " ++ e ++ ". Raw context:\n" ++ context)
                sources
            | Except.ok parts =>
              if parts = [] then
                SearchResult.ok
                  "The AI model returned an empty response. This might be due to safety settings or the query itself."
                  sources
              else
                SearchResult.ok (strConcat parts) sources

/-- First-occurrence-wins deduplication, written from the specification: one
entry per distinct url value, first occurrence determines position and title,
later duplicates dropped. Used to characterise `uniqueSources`. -/
def dedupSpec : List RMeta → List SourceRef
  | [] => []
  | r :: rest =>
    { title := r.title.getD "Unknown Title", url := r.url } ::
      (dedupSpec rest).filter (fun s => decide (s.url ≠ r.url))

/-! ### Concrete fixtures used by witnesses and counterexamples -/

def longContent : String := String.mk (List.replicate 501 'a')

def mLong : Message := { role := "user", content := longContent }

def mShort : Message := { role := "model", content := "ok" }

def viEmpty : VectorIndex := { records := [] }

def dbEmpty : SqlDb := { chats := [], nextId := 1 }

def envEmbedFail : SaveEnv :=
  { embed := fun _ => Except.error "embedding backend down", addError := none }

def envOkSave : SaveEnv :=
  { embed := fun cs => Except.ok (cs.map (fun _ => [0])), addError := none }

def savedRec : ChatRecord :=
  { id := 7, title := some "Old", url := "u1", messages := [], collection := some "SQL" }

def dbWithU1 : SqlDb := { chats := [savedRec], nextId := 8 }

def convU1 : Conversation :=
  { title := "T", url := "u1", messages := [mShort], sidebarTitle := some "S",
    collection := some "SQL" }

def convNew : Conversation :=
  { title := "T", url := "u9", messages := [mShort], sidebarTitle := some "S",
    collection := some "SQL" }

def convNoMsgs : Conversation :=
  { title := "T", url := "u3", messages := [], sidebarTitle := some "S",
    collection := some "SQL" }

def convNoSidebar : Conversation :=
  { title := "T2", url := "u2", messages := [mShort], sidebarTitle := none,
    collection := some "Uncategorized" }

def qEnvEmbedFail : QueryEnv :=
  { embedQuery := fun _ => Except.error "model down"
    queryIndex := fun _ _ => Except.ok ([], [])
    geminiKey := none
    generate := fun _ => Except.ok [] }

def qEnvIndexFail : QueryEnv :=
  { embedQuery := fun _ => Except.ok [0]
    queryIndex := fun _ _ => Except.error "index down"
    geminiKey := none
    generate := fun _ => Except.ok [] }

def qEnvNoDocs : QueryEnv :=
  { embedQuery := fun _ => Except.ok [0]
    queryIndex := fun _ _ => Except.ok ([], [])
    geminiKey := none
    generate := fun _ => Except.ok [] }

def qEnvGenFail : QueryEnv :=
  { embedQuery := fun _ => Except.ok [0]
    queryIndex := fun _ _ =>
      Except.ok (["doc1"], [some { title := some "T", url := some "u" }])
    geminiKey := some "key"
    generate := fun _ => Except.error "boom" }

/-! ### String helper lemmas -/

theorem strAppendAssoc (a b c : String) : a ++ b ++ c = a ++ (b ++ c) := by
  apply String.ext
  simp [String.data_append]

theorem strAppendEmpty (a : String) : a ++ "" = a := by
  apply String.ext
  simp [String.data_append]

theorem strEmptyAppend (a : String) : "" ++ a = a := by
  apply String.ext
  simp [String.data_append]

theorem strConcat_append (l1 l2 : List String) :
    strConcat (l1 ++ l2) = strConcat l1 ++ strConcat l2 := by
  induction l1 with
  | nil => simp [strConcat, strEmptyAppend]
  | cons s l ih => simp [strConcat, ih, strAppendAssoc]

theorem append_newline_ne_empty (s : String) : s ++ "\n" ≠ "" := by
  intro h
  have h2 := congrArg String.length h
  simp [String.length_append] at h2
  exact absurd h2.2 (by decide)

/-! ### Chunker lemmas -/

theorem chunksAux_ne_nil :
    ∀ (msgs : List Message) (cur : String), msgs ≠ [] → chunksAux cur msgs ≠ [] := by
  intro msgs
  induction msgs with
  | nil => intro cur h; exact absurd rfl h
  | cons m rest ih =>
    intro cur _
    show chunksAux cur (m :: rest) ≠ []
    rw [chunksAux]
    split
    · exact List.cons_ne_nil _ _
    · rename_i hcond
      push_neg at hcond
      exact ih _ hcond.2

theorem chunksAux_dropLast_long :
    ∀ (msgs : List Message) (cur : String),
      ∀ c ∈ (chunksAux cur msgs).dropLast, 500 < c.length := by
  intro msgs
  induction msgs with
  | nil => intro cur c hc; simp [chunksAux] at hc
  | cons m rest ih =>
    intro cur c hc
    rw [chunksAux] at hc
    split at hc
    · rename_i hcond
      rcases hrest : chunksAux "" rest with _ | ⟨x, xs⟩
      · rw [hrest] at hc
        simp at hc
      · rw [hrest] at hc
        rw [List.dropLast_cons₂] at hc
        rcases List.mem_cons.mp hc with hceq | hmem
        · subst hceq
          rcases hcond with hlong | hnil
          · exact hlong
          · rw [hnil] at hrest
            simp [chunksAux] at hrest
        · have := ih ""
          rw [hrest] at this
          exact this c hmem
    · exact ih _ c hc

theorem chunksAux_concat :
    ∀ (msgs : List Message) (cur : String), msgs ≠ [] →
      strConcat (chunksAux cur msgs) = cur ++ strConcat (msgs.map msgLine) := by
  intro msgs
  induction msgs with
  | nil => intro cur h; exact absurd rfl h
  | cons m rest ih =>
    intro cur _
    rw [chunksAux]
    rcases hrest : rest with _ | ⟨m2, rest2⟩
    · simp [chunksAux, strConcat, strAppendEmpty, strAppendAssoc]
    · rw [← hrest]
      have hrne : rest ≠ [] := by rw [hrest]; exact List.cons_ne_nil _ _
      split
      · rw [strConcat, ih "" hrne, strEmptyAppend]
        simp [strConcat, strAppendAssoc]
      · rw [ih _ hrne]
        simp [strConcat, strAppendAssoc]

theorem chunksAux_partition :
    ∀ (msgs : List Message) (acc : List Message), msgs ≠ [] →
      ∃ parts : List (List Message),
        parts.flatten = acc ++ msgs ∧ (∀ p ∈ parts, p ≠ []) ∧
        chunksAux (strConcat (acc.map msgLine)) msgs =
          parts.map (fun p => strConcat (p.map msgLine)) := by
  intro msgs
  induction msgs with
  | nil => intro acc h; exact absurd rfl h
  | cons m rest ih =>
    intro acc _
    have hbuf : strConcat (acc.map msgLine) ++ msgLine m =
        strConcat ((acc ++ [m]).map msgLine) := by
      rw [List.map_append, strConcat_append]
      simp [strConcat, strAppendEmpty]
    rcases hrest : rest with _ | ⟨m2, rest2⟩
    · refine ⟨[acc ++ [m]], by simp, ?_, ?_⟩
      · intro p hp
        simp at hp
        subst hp
        simp
      · rw [chunksAux]
        simp only [hbuf]
        split
        · simp [chunksAux]
        · rename_i hcond
          exact absurd (Or.inr trivial) hcond
    · rw [← hrest]
      have hrne : rest ≠ [] := by rw [hrest]; exact List.cons_ne_nil _ _
      rw [chunksAux]
      simp only [hbuf]
      split
      · obtain ⟨parts2, hjoin, hne, heq⟩ := ih [] hrne
        refine ⟨(acc ++ [m]) :: parts2, ?_, ?_, ?_⟩
        · simp [hjoin]
        · intro p hp
          rcases List.mem_cons.mp hp with hpe | hpm
          · subst hpe; simp
          · exact hne p hpm
        · have h0 : ("" : String) = strConcat (([] : List Message).map msgLine) := rfl
          rw [h0, heq]
          simp
      · obtain ⟨parts2, hjoin, hne, heq⟩ := ih (acc ++ [m]) hrne
        refine ⟨parts2, ?_, hne, heq⟩
        rw [hjoin]
        simp

theorem msgLineConcat_ends_newline (p : List Message) (hp : p ≠ []) :
    ∃ s, strConcat (p.map msgLine) = s ++ "\n" := by
  rcases List.eq_nil_or_concat p with hnil | ⟨q, m, hqm⟩
  · exact absurd hnil hp
  · subst hqm
    refine ⟨strConcat (q.map msgLine) ++ (m.role ++ ": " ++ m.content), ?_⟩
    rw [List.concat_eq_append, List.map_append, strConcat_append]
    simp [strConcat, msgLine, strAppendEmpty, strAppendAssoc]

/-! ### Ingestion-loop lemmas -/

theorem ingestLoop_chunks (conv : Conversation) (sqlId : Nat) :
    ∀ (msgs : List Message) (cur : String) (counter : Nat),
      (ingestLoop conv sqlId cur counter msgs).1 = chunksAux cur msgs := by
  intro msgs
  induction msgs with
  | nil => intro cur counter; rfl
  | cons m rest ih =>
    intro cur counter
    rw [ingestLoop, chunksAux]
    split
    · simp [ih]
    · exact ih _ _

theorem ingestLoop_metas (conv : Conversation) (sqlId : Nat) :
    ∀ (msgs : List Message) (cur : String) (counter : Nat),
      (ingestLoop conv sqlId cur counter msgs).2.2 =
        (List.range' counter (chunksAux cur msgs).length).map (mkMeta conv sqlId) := by
  intro msgs
  induction msgs with
  | nil => intro cur counter; rfl
  | cons m rest ih =>
    intro cur counter
    rw [ingestLoop, chunksAux]
    split
    · simp [ih, List.range'_succ]
    · exact ih _ _

/-! ### Deduplication lemmas -/

theorem dedupAux_not_seen :
    ∀ (ms : List (Option RMeta)) (seen : List (Option String)),
      ∀ s ∈ dedupAux seen ms, s.url ∉ seen := by
  intro ms
  induction ms with
  | nil => intro seen s hs; simp [dedupAux] at hs
  | cons o rest ih =>
    intro seen s hs
    match o with
    | none => exact ih seen s hs
    | some r =>
      rw [dedupAux] at hs
      split at hs
      · exact ih seen s hs
      · rename_i hnot
        rcases List.mem_cons.mp hs with hse | hsm
        · subst hse; exact hnot
        · have := ih _ s hsm
          intro hcon
          exact this (List.mem_cons_of_mem _ hcon)

theorem dedupAux_nodup :
    ∀ (ms : List (Option RMeta)) (seen : List (Option String)),
      ((dedupAux seen ms).map SourceRef.url).Nodup := by
  intro ms
  induction ms with
  | nil => intro seen; simp [dedupAux]
  | cons o rest ih =>
    intro seen
    match o with
    | none => exact ih seen
    | some r =>
      rw [dedupAux]
      split
      · exact ih seen
      · rw [List.map_cons, List.nodup_cons]
        refine ⟨?_, ih _⟩
        intro hmem
        obtain ⟨s, hs, hurl⟩ := List.mem_map.mp hmem
        have := dedupAux_not_seen rest (r.url :: seen) s hs
        exact this (hurl ▸ List.mem_cons_self _ _)

theorem dedupAux_mem :
    ∀ (ms : List (Option RMeta)) (seen : List (Option String)) (u : Option String),
      u ∈ (dedupAux seen ms).map SourceRef.url ↔
        u ∉ seen ∧ ∃ r : RMeta, some r ∈ ms ∧ r.url = u := by
  intro ms
  induction ms with
  | nil => intro seen u; simp [dedupAux]
  | cons o rest ih =>
    intro seen u
    match o with
    | none =>
      rw [show dedupAux seen (none :: rest) = dedupAux seen rest from rfl, ih]
      constructor
      · rintro ⟨hns, r, hr, hu⟩
        exact ⟨hns, r, List.mem_cons_of_mem _ hr, hu⟩
      · rintro ⟨hns, r, hr, hu⟩
        rcases List.mem_cons.mp hr with hre | hrm
        · exact absurd hre (by simp)
        · exact ⟨hns, r, hrm, hu⟩
    | some r =>
      rw [dedupAux]
      split
      · rename_i hseen
        rw [ih]
        constructor
        · rintro ⟨hns, r2, hr2, hu⟩
          exact ⟨hns, r2, List.mem_cons_of_mem _ hr2, hu⟩
        · rintro ⟨hns, r2, hr2, hu⟩
          rcases List.mem_cons.mp hr2 with hre | hrm
          · have hr2r : r2 = r := by injection hre
            subst hr2r
            subst hu
            exact absurd hseen hns
          · exact ⟨hns, r2, hrm, hu⟩
      · rename_i hnot
        rw [List.map_cons]
        constructor
        · intro hmem
          rcases List.mem_cons.mp hmem with hue | hum
          · subst hue
            exact ⟨hnot, r, List.mem_cons_self _ _, rfl⟩
          · obtain ⟨hns, r2, hr2, hu⟩ := (ih _ _).mp hum
            have hnseen : u ∉ seen := fun hc => hns (List.mem_cons_of_mem _ hc)
            exact ⟨hnseen, r2, List.mem_cons_of_mem _ hr2, hu⟩
        · rintro ⟨hns, r2, hr2, hu⟩
          rcases List.mem_cons.mp hr2 with hre | hrm
          · have hr2r : r2 = r := by injection hre
            subst hr2r
            subst hu
            exact List.mem_cons_self _ _
          · by_cases hur : u = r.url
            · subst hur
              exact List.mem_cons_self _ _
            · refine List.mem_cons_of_mem _ ((ih _ _).mpr ⟨?_, r2, hrm, hu⟩)
              intro hc
              rcases List.mem_cons.mp hc with hc1 | hc2
              · exact hur hc1
              · exact hns hc2

theorem dedupAux_sublist :
    ∀ (ms : List (Option RMeta)) (seen : List (Option String)),
      List.Sublist ((dedupAux seen ms).map SourceRef.url)
        ((ms.filterMap id).map RMeta.url) := by
  intro ms
  induction ms with
  | nil => intro seen; simp [dedupAux]
  | cons o rest ih =>
    intro seen
    match o with
    | none =>
      rw [show dedupAux seen (none :: rest) = dedupAux seen rest from rfl]
      simpa using ih seen
    | some r =>
      rw [dedupAux]
      have hfm : ((some r :: rest).filterMap id).map RMeta.url =
          r.url :: (rest.filterMap id).map RMeta.url := by simp
      rw [hfm]
      split
      · exact List.Sublist.cons _ (ih seen)
      · exact List.Sublist.cons₂ _ (ih _)

theorem filter_url_absorb (X : List SourceRef) (seen : List (Option String))
    (u : Option String) (hu : u ∈ seen) :
    (X.filter (fun s => decide (s.url ≠ u))).filter (fun s => decide (s.url ∉ seen)) =
      X.filter (fun s => decide (s.url ∉ seen)) := by
  rw [List.filter_filter]
  apply List.filter_congr
  intro a _
  by_cases ha : a.url ∈ seen
  · simp [ha]
  · have hau : a.url ≠ u := fun h => ha (h ▸ hu)
    simp [ha, hau]

theorem filter_url_push (X : List SourceRef) (seen : List (Option String))
    (u : Option String) :
    (X.filter (fun s => decide (s.url ≠ u))).filter (fun s => decide (s.url ∉ seen)) =
      X.filter (fun s => decide (s.url ∉ u :: seen)) := by
  rw [List.filter_filter]
  apply List.filter_congr
  intro a _
  by_cases hau : a.url = u
  · simp [hau]
  · by_cases ha : a.url ∈ seen
    · simp [hau, ha]
    · simp [hau, ha]

theorem dedupAux_eq_filter_spec :
    ∀ (ms : List (Option RMeta)) (seen : List (Option String)),
      dedupAux seen ms =
        (dedupSpec (ms.filterMap id)).filter (fun s => decide (s.url ∉ seen)) := by
  intro ms
  induction ms with
  | nil => intro seen; rfl
  | cons o rest ih =>
    intro seen
    match o with
    | none =>
      rw [show dedupAux seen (none :: rest) = dedupAux seen rest from rfl, ih]
      simp
    | some r =>
      have hfm : (some r :: rest).filterMap id = r :: rest.filterMap id := by simp
      rw [dedupAux, hfm, dedupSpec]
      split
      · rename_i hseen
        rw [ih, List.filter_cons]
        have : (decide (({ title := r.title.getD "Unknown Title", url := r.url } :
            SourceRef).url ∉ seen)) = false := by simp [hseen]
        rw [this]
        simp only [Bool.false_eq_true, if_false]
        exact (filter_url_absorb _ seen r.url hseen).symm
      · rename_i hseen
        rw [ih, List.filter_cons]
        have : (decide (({ title := r.title.getD "Unknown Title", url := r.url } :
            SourceRef).url ∉ seen)) = true := by simp [hseen]
        rw [this]
        simp only [if_true]
        rw [filter_url_push]

/-! ### Claim theorems -/

/-- C1 counterexample: a truthy metadata entry lacking a url is NOT skipped by
the deduplication loop of ai_search_chats — it is emitted as a source whose url
is missing (None), refuting the claim that every metadata entry lacking a url
is skipped entirely and never emitted with a missing url. -/
theorem C1_counterexample :
    uniqueSources [some { title := some "T", url := none }] =
      [{ title := "T", url := none }] ∧
    ∃ s ∈ uniqueSources [some { title := some "T", url := none }], s.url = none := by
  decide

/-- C1 (amended): the deduplicated sources list equals first-occurrence-wins
deduplication of the truthy metadata entries keyed on the url value, where a
missing url is the key None rather than being skipped: its url list has no
duplicates, contains exactly the url values of the truthy entries, and is a
subsequence of the ranked url sequence (so order is first occurrence). -/
theorem C1_dedup_first_occurrence (ms : List (Option RMeta)) :
    uniqueSources ms = dedupSpec (ms.filterMap id) ∧
    ((uniqueSources ms).map SourceRef.url).Nodup ∧
    (∀ u : Option String,
      u ∈ (uniqueSources ms).map SourceRef.url ↔
        ∃ r : RMeta, some r ∈ ms ∧ r.url = u) ∧
    List.Sublist ((uniqueSources ms).map SourceRef.url)
      ((ms.filterMap id).map RMeta.url) := by
  refine ⟨?_, dedupAux_nodup ms [], ?_, dedupAux_sublist ms []⟩
  · rw [uniqueSources, dedupAux_eq_filter_spec ms []]
    apply List.filter_eq_self.mpr
    intro a _
    simp
  · intro u
    rw [uniqueSources, dedupAux_mem ms [] u]
    simp

/-- C2: every chunk emitted by the chunking loop of save_chat except possibly
the last has text length strictly greater than 500 characters (a chunk is
closed only once its accumulated length exceeds the threshold), and for a
non-empty conversation the final chunk is emitted regardless of its length. -/
theorem C2_chunk_threshold (msgs : List Message) :
    (∀ c ∈ (chunks msgs).dropLast, 500 < c.length) ∧
    (msgs ≠ [] → chunks msgs ≠ []) := by
  exact ⟨chunksAux_dropLast_long msgs "", chunksAux_ne_nil msgs ""⟩

/-- C2 witness: on a two-message conversation whose first message line is 508
characters long, the non-final chunk exceeds the threshold; and a one-message
conversation still yields a (short) final chunk. -/
theorem C2_witness :
    500 < (msgLine mLong).length ∧ chunks [mShort] ≠ [] :=
  ⟨(C2_chunk_threshold [mLong, mShort]).1 (msgLine mLong) (by decide),
   (C2_chunk_threshold [mShort]).2 (by decide)⟩

/-- C3: concatenating the emitted chunks in emission order reproduces exactly
the concatenation of the role-colon-content lines of the original messages in
their original order (lossless, order-preserving round trip). -/
theorem C3_roundtrip (msgs : List Message) :
    strConcat (chunks msgs) = strConcat (msgs.map msgLine) := by
  rcases msgs with _ | ⟨m, rest⟩
  · rfl
  · have h := chunksAux_concat (m :: rest) "" (List.cons_ne_nil _ _)
    rw [chunks, h, strEmptyAppend]

/-- C10: the chunk list is the image of a partition of the message sequence
into non-empty consecutive groups, each chunk being the concatenation of the
complete lines of its group — so no line is split across chunks — and every
chunk is a non-empty string ending in a newline character. -/
theorem C10_chunk_shape (msgs : List Message) :
    ∃ parts : List (List Message),
      parts.flatten = msgs ∧ (∀ p ∈ parts, p ≠ []) ∧
      chunks msgs = parts.map (fun p => strConcat (p.map msgLine)) ∧
      ∀ c ∈ chunks msgs, c ≠ "" ∧ ∃ s, c = s ++ "\n" := by
  rcases hm : msgs with _ | ⟨m, rest⟩
  · refine ⟨[], by simp, by simp, by simp [chunks, chunksAux], by simp [chunks, chunksAux]⟩
  · obtain ⟨parts, hflat, hne, heq⟩ := chunksAux_partition (m :: rest) [] (List.cons_ne_nil _ _)
    have heq2 : chunks (m :: rest) = parts.map (fun p => strConcat (p.map msgLine)) := heq
    refine ⟨parts, by simpa using hflat, hne, heq2, ?_⟩
    intro c hc
    rw [heq2] at hc
    obtain ⟨p, hp, hcp⟩ := List.mem_map.mp hc
    obtain ⟨s, hs⟩ := msgLineConcat_ends_newline p (hne p hp)
    rw [← hcp, hs]
    exact ⟨append_newline_ne_empty s, s, rfl⟩

/-- C8 counterexample: a conversation whose sidebarTitle is absent produces a
vector-metadata entry whose title is None rather than a string, refuting the
claim that every vector record carries a string-valued title. -/
theorem C8_counterexample :
    ∃ m ∈ buildMetadatas convNoSidebar 1, m.title = none := by
  decide

/-- C8 (amended): the metadata list attached to the vectors upserted during
ingestion has one entry per chunk, and the entry at position i carries the
parent SQL id, a title equal to the optional sidebarTitle of the conversation
(null when absent), the conversation url, chunk_index equal to the 0-based
position i, and the collection tag of the conversation. -/
theorem C8_metadata_schema (conv : Conversation) (sqlId : Nat) :
    buildMetadatas conv sqlId =
      (List.range (chunks conv.messages).length).map
        (fun i => ({ sql_chat_id := sqlId, title := conv.sidebarTitle, url := conv.url,
                     chunk_index := i, collection := conv.collection } : ChunkMeta)) := by
  rw [buildMetadatas, ingestLoop_metas conv sqlId conv.messages "" 0, List.range_eq_range']
  rfl

/-- C9: a non-empty message sequence always yields at least one chunk, the
empty sequence yields zero chunks, and saving a conversation with no messages
leaves the vector index untouched (no upsert happens). -/
theorem C9_chunk_counts (env : SaveEnv) (conv : Conversation) (db : SqlDb)
    (vi : VectorIndex) :
    (∀ msgs : List Message, msgs ≠ [] → chunks msgs ≠ []) ∧
    chunks [] = [] ∧
    (conv.messages = [] → (saveChat env conv db vi).2.2 = vi) := by
  refine ⟨fun msgs h => chunksAux_ne_nil msgs "" h, rfl, ?_⟩
  intro hmsgs
  rw [saveChat]
  rcases hfind : db.chats.find? (fun c => c.url == conv.url) with _ | ex
  · rw [hfind]
    simp [hmsgs, ingestLoop]
  · rw [hfind]

/-- C9 witness: instantiated on a conversation with no messages and a fresh
database, the save leaves the (empty) vector index unchanged, and the general
chunk-count facts hold at concrete inputs. -/
theorem C9_witness :
    chunks [mShort] ≠ [] ∧ chunks [] = [] ∧
    (saveChat envOkSave convNoMsgs dbEmpty viEmpty).2.2 = viEmpty :=
  ⟨(C9_chunk_counts envOkSave convNoMsgs dbEmpty viEmpty).1 [mShort] (by decide),
   (C9_chunk_counts envOkSave convNoMsgs dbEmpty viEmpty).2.1,
   (C9_chunk_counts envOkSave convNoMsgs dbEmpty viEmpty).2.2 rfl⟩

/-- C6: saving a conversation whose url is already stored returns the info
response with the stored id before any chunking, embedding or upsert — the SQL
store and the vector index are unchanged, and the outcome does not depend on
the embedding or vector backends at all. -/
theorem C6_duplicate_noop (env env2 : SaveEnv) (conv : Conversation) (db : SqlDb)
    (vi : VectorIndex) (ex : ChatRecord)
    (hfound : db.chats.find? (fun c => c.url == conv.url) = some ex) :
    saveChat env conv db vi =
      ({ status := "info",
         message := "Chat \x27" ++ optStr ex.title ++ "\x27 was already saved.",
         database_id := ex.id }, db, vi) ∧
    saveChat env conv db vi = saveChat env2 conv db vi := by
  refine ⟨?_, ?_⟩ <;> simp [saveChat, hfound]

/-- C6 witness: re-saving the conversation stored under url u1 returns the info
response carrying the stored id 7 and changes neither store, whether the
embedding backend would fail or succeed. -/
theorem C6_witness :
    saveChat envEmbedFail convU1 dbWithU1 viEmpty =
      ({ status := "info",
         message := "Chat \x27" ++ optStr savedRec.title ++ "\x27 was already saved.",
         database_id := savedRec.id }, dbWithU1, viEmpty) ∧
    saveChat envEmbedFail convU1 dbWithU1 viEmpty =
      saveChat envOkSave convU1 dbWithU1 viEmpty :=
  C6_duplicate_noop envEmbedFail envOkSave convU1 dbWithU1 viEmpty savedRec rfl

/-- C4: saving a new conversation commits the SQL row first; if the embedding
call or the vector add then raises, the failure is swallowed — the response is
still the success response carrying the committed SQL id, the committed row is
kept, and the vector index is left unchanged. -/
theorem C4_ingest_failure_swallowed (env : SaveEnv) (conv : Conversation) (db : SqlDb)
    (vi : VectorIndex)
    (hnew : db.chats.find? (fun c => c.url == conv.url) = none)
    (hfail : (∃ e, env.embed (chunks conv.messages) = Except.error e) ∨
      env.addError.isSome) :
    (saveChat env conv db vi).1.status = "success" ∧
    (saveChat env conv db vi).1.database_id = db.nextId ∧
    (saveChat env conv db vi).2.1.chats =
      db.chats ++ [{ id := db.nextId, title := conv.sidebarTitle, url := conv.url,
                     messages := conv.messages, collection := conv.collection }] ∧
    (saveChat env conv db vi).2.2 = vi := by
  have hch : (ingestLoop conv db.nextId "" 0 conv.messages).1 = chunks conv.messages :=
    ingestLoop_chunks conv db.nextId conv.messages "" 0
  rw [saveChat, hnew]
  refine ⟨rfl, rfl, rfl, ?_⟩
  show (if (ingestLoop conv db.nextId "" 0 conv.messages).1 = [] then vi
    else match env.embed (ingestLoop conv db.nextId "" 0 conv.messages).1 with
      | Except.error _ => vi
      | Except.ok embeddings =>
        match env.addError with
        | some _ => vi
        | none =>
          { records := vi.records ++
              mkRecords (ingestLoop conv db.nextId "" 0 conv.messages).2.1 embeddings
                (ingestLoop conv db.nextId "" 0 conv.messages).1
                (ingestLoop conv db.nextId "" 0 conv.messages).2.2 } ) = vi
  by_cases hemp : (ingestLoop conv db.nextId "" 0 conv.messages).1 = []
  · rw [if_pos hemp]
  · rw [if_neg hemp, hch]
    rcases hfail with ⟨e, he⟩ | haddsome
    · rw [he]
    · rcases hembed : env.embed (chunks conv.messages) with e | embeddings
      · rfl
      · rcases haddval : env.addError with _ | a
        · rw [haddval] at haddsome
          simp at haddsome
        · rfl

/-- C4 witness: saving a fresh one-message conversation while the embedding
backend raises still returns success with the new SQL id 1, keeps the committed
row, and leaves the vector index empty. -/
theorem C4_witness :
    (saveChat envEmbedFail convNew dbEmpty viEmpty).1.status = "success" ∧
    (saveChat envEmbedFail convNew dbEmpty viEmpty).1.database_id = dbEmpty.nextId ∧
    (saveChat envEmbedFail convNew dbEmpty viEmpty).2.1.chats =
      dbEmpty.chats ++
        [{ id := dbEmpty.nextId, title := convNew.sidebarTitle, url := convNew.url,
           messages := convNew.messages, collection := convNew.collection }] ∧
    (saveChat envEmbedFail convNew dbEmpty viEmpty).2.2 = viEmpty :=
  C4_ingest_failure_swallowed envEmbedFail convNew dbEmpty viEmpty rfl
    (Or.inl ⟨"embedding backend down", rfl⟩)

/-- C5: on the query path, a raising query embedding or vector query makes the
whole search call return the internal-error result; a failure only in the
Gemini synthesis call instead yields a successful response whose answer is the
raw retrieved context annotated with the synthesis error, with the deduplicated
sources still attached. -/
theorem C5_query_error_policy (env : QueryEnv) (q : String) (cf : Option String)
    (hq : q ≠ "") :
    (∀ e, env.embedQuery q = Except.error e →
      aiSearch env q cf =
        SearchResult.httpError 500 ("An internal error occurred during search: " ++ e)) ∧
    (∀ v e, env.embedQuery q = Except.ok v → env.queryIndex v cf = Except.error e →
      aiSearch env q cf =
        SearchResult.httpError 500 ("An internal error occurred during search: " ++ e)) ∧
    (∀ v docs metas k e, env.embedQuery q = Except.ok v →
      env.queryIndex v cf = Except.ok (docs, metas) → docs ≠ [] →
      env.geminiKey = some k →
      env.generate (promptOf (sepJoin docs) q) = Except.error e →
      aiSearch env q cf =
        SearchResult.ok
          ("Error generating answer with Gemini: " ++ e ++ ". Raw context:\n" ++
            sepJoin docs)
          (uniqueSources metas)) := by
  refine ⟨?_, ?_, ?_⟩
  · intro e he
    simp [aiSearch, hq, he]
  · intro v e hv he
    simp [aiSearch, hq, hv, he]
  · intro v docs metas k e hv hr hd hk hg
    simp [aiSearch, hq, hv, hr, hd, hk, hg]

/-- C5 witness: with a working embedder and index returning one document but a
raising Gemini call, the search still succeeds with the annotated raw context
and the deduplicated source attached. -/
theorem C5_witness :
    aiSearch qEnvGenFail "question" none =
      SearchResult.ok "Error generating answer with Gemini: boom. Raw context:\ndoc1"
        [{ title := "T", url := some "u" }] :=
  (((C5_query_error_policy qEnvGenFail "question" none (by decide)).2.2 [0] ["doc1"]
      [some { title := some "T", url := some "u" }] "key" "boom" rfl rfl (by decide)
      rfl rfl).trans (by decide))

/-- C7: a query whose vector result set is empty returns the canned
no-relevant-information answer with an empty sources list as a normal
successful outcome, not an error. -/
theorem C7_empty_result (env : QueryEnv) (q : String) (cf : Option String)
    (v : List Int) (metas : List (Option RMeta)) (hq : q ≠ "")
    (he : env.embedQuery q = Except.ok v)
    (hr : env.queryIndex v cf = Except.ok ([], metas)) :
    aiSearch env q cf =
      SearchResult.ok
        "I couldn\x27t find any relevant information in your saved chats to answer that."
        [] := by
  simp [aiSearch, hq, he, hr]

/-- C7 witness: with a collection filter matching nothing (the index returns no
documents), the search returns the canned answer and empty sources. -/
theorem C7_witness :
    aiSearch qEnvNoDocs "question" (some "NoSuchCollection") =
      SearchResult.ok
        "I couldn\x27t find any relevant information in your saved chats to answer that."
        [] :=
  C7_empty_result qEnvNoDocs "question" (some "NoSuchCollection") [0] [] (by decide)
    rfl rfl
